import Mathlib

/-
Verification of the orthotokenizer segmentation engine.

Strings of the Python source are embedded as `List Char`; `unicodedata.normalize("NFD", _)`
is an external Unicode-library capability and is threaded through as an abstract
function parameter `nfd` where a claim depends on it, and treated as the identity
on already-normalized ASCII inputs elsewhere.  File I/O is out of scope: loaders
take the list of lines of the file as input.
-/

namespace Ortho

/-- The boundary marker "#" used throughout tokenization. -/
def hash : List Char := ['#']

/-- A single space, the token separator of the output format. -/
def space : List Char := [' ']

/-- The unknown-character marker "?". -/
def qmark : List Char := ['?']

/-- Trie node (tree.py, class TreeNode): a character, children keyed by next
character, and a sentinel flag marking the end of a complete grapheme.  Python
dicts become insertion-ordered association lists. -/
inductive TreeNode where
  | mk : Char → List (Char × TreeNode) → Bool → TreeNode

def TreeNode.char : TreeNode → Char
  | .mk c _ _ => c

def TreeNode.children : TreeNode → List (Char × TreeNode)
  | .mk _ ch _ => ch

def TreeNode.sentinel : TreeNode → Bool
  | .mk _ _ s => s

/-- Association-list lookup: the embedding of `node.children.get(char)`. -/
def lookupA : List (Char × TreeNode) → Char → Option TreeNode
  | [], _ => none
  | (k, v) :: rest, c => if k = c then some v else lookupA rest c

def lookupChild (node : TreeNode) (c : Char) : Option TreeNode :=
  lookupA node.children c

/-- Replace the value bound at a key, or append a new binding at the end
(the net effect of dict `setdefault` followed by mutation of the child). -/
def updateA : List (Char × TreeNode) → Char → TreeNode → List (Char × TreeNode)
  | [], c, v => [(c, v)]
  | (k, w) :: rest, c, v => if k = c then (c, v) :: rest else (k, w) :: updateA rest c v

/-- tree.py `addMultigraph`: walk/extend the trie along the word, reusing an
existing child or creating `TreeNode(char)`, and mark the last node sentinel. -/
def addMultigraph (node : TreeNode) : List Char → TreeNode
  | [] => TreeNode.mk node.char node.children true
  | c :: cs =>
    let child := match lookupChild node c with
      | some ch => ch
      | none => TreeNode.mk c [] false
    TreeNode.mk node.char (updateA node.children c (addMultigraph child cs)) node.sentinel

/-- tree.py `Tree.__init__` over the profile's grapheme column (file reading, the
row normalization of util.normalized_rows and the header row are handled before
this point and out of scope).  The root carries a placeholder character and is
marked sentinel, as in the source. -/
def buildTree (gs : List (List Char)) : TreeNode :=
  gs.foldl addMultigraph (TreeNode.mk ' ' [] true)

/-- The while loop of tree.py `Tree._parse` together with its recursion: walk the
trie from `node` along `rest` (a single deterministic downward path); each time a
sentinel node is passed, recursively parse the remaining suffix from the root, and
a non-empty subparse overwrites the recorded candidate `parse`.  `consumed` is
`line[:curr]` of the source; the inlined `if rest' = [] then hash else ...` is
exactly `Tree._parse root rest'` (see `tparse`). -/
def walk (root node : TreeNode) (consumed rest : List Char) (parse : List Char) : List Char :=
  match rest with
  | [] => parse
  | c :: rest' =>
    match lookupChild node c with
    | none => parse
    | some child =>
      let parse' :=
        if child.sentinel then
          let subparse := if rest' = [] then hash else walk root root [] rest' []
          if 0 < subparse.length then (consumed ++ [c]) ++ space ++ subparse else parse
        else parse
      walk root child (consumed ++ [c]) rest' parse'

/-- tree.py `Tree._parse`: the empty substring parses as the boundary marker "#";
otherwise run the trie walk from the root with an empty recorded candidate. -/
def tparse (root : TreeNode) (line : List Char) : List Char :=
  if line = [] then hash else walk root root [] line []

/-- tree.py `Tree.parse`: prefix a successful (truthy) inner parse with "# ",
otherwise return the empty string. -/
def treeParse (root : TreeNode) (line : List Char) : List Char :=
  if tparse root line = [] then [] else hash ++ space ++ tparse root line

/-- Specification-side helper: follow trie children along a character list. -/
def reach (node : TreeNode) : List Char → Option TreeNode
  | [] => some node
  | c :: cs =>
    match lookupChild node c with
    | some child => reach child cs
    | none => none

/-- Whether the path `cs` from `node` exists in the trie and ends at a sentinel
(terminal) node. -/
def sentinelAt (node : TreeNode) (cs : List Char) : Bool :=
  match reach node cs with
  | some n => n.sentinel
  | none => false

/-- `j` is a candidate split point of `rest` below `node`: the first `j`
characters form a walkable path ending at a terminal trie node, and the remaining
suffix itself parses successfully from the root. -/
def isCand (root node : TreeNode) (rest : List Char) (j : Nat) : Prop :=
  1 ≤ j ∧ j ≤ rest.length ∧ sentinelAt node (rest.take j) = true ∧
    tparse root (rest.drop j) ≠ []

instance isCand.dec (root node : TreeNode) (rest : List Char) (j : Nat) :
    Decidable (isCand root node rest j) := by
  unfold isCand; infer_instance

/-- The greatest candidate split point, computed along the walk. -/
def maxCand (root node : TreeNode) : List Char → Option Nat
  | [] => none
  | c :: rest' =>
    match lookupChild node c with
    | none => none
    | some child =>
      match maxCand root child rest' with
      | some j => some (j + 1)
      | none =>
        if child.sentinel = true ∧ tparse root rest' ≠ [] then some 1 else none

/-- Shape of a successful inner parse: each grapheme followed by a space, then "#". -/
def renderTok (gs : List (List Char)) : List Char :=
  (gs.map (fun g => g ++ space)).flatten ++ hash

/-- Demonstration trie for the profile declaring graphemes "uu", "b", "o". -/
def demoTree : TreeNode :=
  buildTree [['u', 'u'], ['b'], ['o']]

/-- Demonstration trie for the profile declaring only the grapheme "uu". -/
def treeUU : TreeNode :=
  buildTree [['u', 'u']]

/-- Python str.strip(): drop whitespace from both ends. -/
def stripWS (l : List Char) : List Char :=
  ((l.dropWhile Char.isWhitespace).reverse.dropWhile Char.isWhitespace).reverse

/-- Python str.lower(), character by character. -/
def lowerL (l : List Char) : List Char := l.map Char.toLower

/-- Python str.startswith. -/
def startsWithL : List Char → List Char → Bool
  | [], _ => true
  | _ :: _, [] => false
  | p :: ps, c :: cs => (p == c) && startsWithL ps cs

/-- Python line.split("\t"). -/
def splitTab (l : List Char) : List (List Char) := l.splitOn '\t'

/-- Python line.split(","). -/
def splitComma (l : List Char) : List (List Char) := l.splitOn ','

/-- Python str.split() with no argument: split on whitespace runs, no empty parts. -/
def splitWSAux : List Char → List Char → List (List Char)
  | [], acc => if acc.isEmpty then [] else [acc.reverse]
  | c :: rest, acc =>
    if c.isWhitespace then
      if acc.isEmpty then splitWSAux rest [] else acc.reverse :: splitWSAux rest []
    else splitWSAux rest (c :: acc)

def splitWS (s : List Char) : List (List Char) := splitWSAux s []

/-- Python " ".join. -/
def joinSpace (ls : List (List Char)) : List Char := (List.intersperse space ls).flatten

/-- The header label prefix "graphemes" and the default transform column. -/
def graphemesLabel : List Char := "graphemes".data

/-- The sentinel replacement value "NULL" dropping a token during remapping. -/
def NULLtok : List Char := ['N', 'U', 'L', 'L']

/-- Errors of `Tokenizer._init_profile`: the duplicate-grapheme Exception carrying
the 1-based line number, and the IndexError raised by `self.column_labels[i]` when
a row has more columns than labels collected so far. -/
inductive ProfErr where
  | dup : Nat → ProfErr
  | indexErr : Nat → ProfErr
deriving DecidableEq

/-- The state built by `Tokenizer._init_profile`: column labels, the
(grapheme, column) → replacement dict, and the op_graphemes key set (dicts become
insertion-ordered association lists / key lists). -/
structure Profile where
  columnLabels : List (List Char)
  mappings : List ((List Char × List Char) × List Char)
  opGraphemes : List (List Char)
deriving DecidableEq

def emptyProfile : Profile := ⟨[], [], []⟩

/-- Python dict assignment: replace the binding in place or append a new one. -/
def dictInsert (m : List ((List Char × List Char) × List Char))
    (k : List Char × List Char) (v : List Char) :
    List ((List Char × List Char) × List Char) :=
  match m with
  | [] => [(k, v)]
  | (k', v') :: rest => if k' = k then (k, v) :: rest else (k', v') :: dictInsert rest k v

/-- The columns of a data row: the stripped line, NFD-normalized, split on tabs. -/
def rowTokens (nfd : List Char → List Char) (rawLine : List Char) : List (List Char) :=
  splitTab (nfd (stripWS rawLine))

/-- The grapheme of a data row: `tokens[0].strip()` of the source. -/
def graphemeKey (nfd : List Char → List Char) (rawLine : List Char) : List Char :=
  stripWS ((rowTokens nfd rawLine).headD [])

/-- The per-row mapping loop `for i in range(0, len(tokens))` of _init_profile:
`self.mappings[grapheme, self.column_labels[i].lower()] = tokens[i].strip()`
(performed only when the row has at most as many tokens as there are labels). -/
def addRowMappings (m : List ((List Char × List Char) × List Char)) (grapheme : List Char)
    (labels tokens : List (List Char)) : List ((List Char × List Char) × List Char) :=
  (labels.zip tokens).foldl
    (fun acc lt => dictInsert acc (grapheme, lowerL lt.1) (stripWS lt.2)) m

/-- A row of the profile that reaches the duplicate check: after stripping it is
non-empty, is not a "#" comment, and is not the "graphemes..." header. -/
def isDataRow (rawLine : List Char) : Prop :=
  (startsWithL hash (stripWS rawLine) || (stripWS rawLine).isEmpty) = false ∧
    startsWithL graphemesLabel (lowerL (stripWS rawLine)) = false

instance isDataRow.dec (rawLine : List Char) : Decidable (isDataRow rawLine) := by
  unfold isDataRow; infer_instance

/-- One iteration of the line loop of `Tokenizer._init_profile` at 0-based line
index `n` (so the 1-based line_count of the source is `n + 1`): skip comments,
blanks and the header (the header appends lowercased stripped column labels),
NFD the line, split into columns, fail on a duplicate grapheme, record the
grapheme, and record its column mappings (an out-of-range label index is the
IndexError of `self.column_labels[i]`). -/
def procLine (nfd : List Char → List Char) (n : Nat) (st : Profile) (rawLine : List Char) :
    Except ProfErr Profile :=
  if startsWithL hash (stripWS rawLine) || (stripWS rawLine).isEmpty then .ok st
  else if startsWithL graphemesLabel (lowerL (stripWS rawLine)) then
    .ok { st with columnLabels :=
      st.columnLabels ++ (splitTab (stripWS rawLine)).map (fun t => stripWS (lowerL t)) }
  else if graphemeKey nfd rawLine ∈ st.opGraphemes then .error (.dup (n + 1))
  else if (rowTokens nfd rawLine).length = 1 then
    .ok { st with opGraphemes := st.opGraphemes ++ [graphemeKey nfd rawLine] }
  else if st.columnLabels.length < (rowTokens nfd rawLine).length then
    .error (.indexErr (n + 1))
  else
    .ok { st with
      opGraphemes := st.opGraphemes ++ [graphemeKey nfd rawLine],
      mappings := addRowMappings st.mappings (graphemeKey nfd rawLine)
        st.columnLabels (rowTokens nfd rawLine) }

/-- The line loop of `Tokenizer._init_profile` over the file's lines, threading
the 0-based line counter and the profile state; an exception aborts the load. -/
def initProfileGo (nfd : List Char → List Char) :
    List (List Char) → Nat → Profile → Except ProfErr Profile
  | [], _, st => .ok st
  | rawLine :: rest, n, st =>
    match procLine nfd n st rawLine with
    | .ok st' => initProfileGo nfd rest (n + 1) st'
    | .error e => .error e

/-- `Tokenizer._init_profile` over the lines of the profile file. -/
def initProfile (nfd : List Char → List Char) (lines : List (List Char)) :
    Except ProfErr Profile :=
  initProfileGo nfd lines 0 emptyProfile

/-- Errors of `Tokenizer._init_rules`: the ValueError raised when
`rule, replacement = line.split(",")` does not unpack into exactly two parts,
and the explicit final count-mismatch ValueError. -/
inductive RuleErr where
  | unpack : RuleErr
  | countMismatch : RuleErr
deriving DecidableEq

/-- A rules-file line that is processed: non-blank and not a "#" comment. -/
def isRulesDataRow (rawLine : List Char) : Prop :=
  (startsWithL hash (stripWS rawLine) || (stripWS rawLine).isEmpty) = false

instance isRulesDataRow.dec (rawLine : List Char) : Decidable (isRulesDataRow rawLine) := by
  unfold isRulesDataRow; infer_instance

/-- The line loop of `Tokenizer._init_rules`, accumulating op_rules (the pattern
strings handed to re.compile — regex compilation itself is an external
capability) and op_replacements, followed by the final count check. -/
def initRulesGo (nfd : List Char → List Char) :
    List (List Char) → List (List Char) → List (List Char) →
      Except RuleErr (List (List Char) × List (List Char))
  | [], opRules, opReplacements =>
    if opRules.length ≠ opReplacements.length then .error .countMismatch
    else .ok (opRules, opReplacements)
  | rawLine :: rest, opRules, opReplacements =>
    if startsWithL hash (stripWS rawLine) || (stripWS rawLine).isEmpty then
      initRulesGo nfd rest opRules opReplacements
    else
      match splitComma (nfd (stripWS rawLine)) with
      | [rule, replacement] =>
        initRulesGo nfd rest (opRules ++ [stripWS rule])
          (opReplacements ++ [stripWS replacement])
      | _ => .error .unpack

/-- `Tokenizer._init_rules` over the lines of the rules file. -/
def initRules (nfd : List Char → List Char) (lines : List (List Char)) :
    Except RuleErr (List (List Char) × List (List Char)) :=
  initRulesGo nfd lines [] []

/-- Whether a literal pattern occurs as a contiguous substring; this is
`pattern.search` restricted to the literal (metacharacter-free) regex fragment. -/
def searchLit (pat : List Char) : List Char → Bool
  | [] => startsWithL pat []
  | c :: cs => startsWithL pat (c :: cs) || searchLit pat cs

/-- `re.sub` for a literal pattern: replace all non-overlapping occurrences, left
to right.  The fuel argument (initialized to the string length, an upper bound
since every step consumes at least one character) makes the recursion
structural. -/
def subLitAux (pat repl : List Char) : Nat → List Char → List Char
  | 0, s => s
  | _ + 1, [] => []
  | fuel + 1, c :: cs =>
    if pat ≠ [] ∧ startsWithL pat (c :: cs) = true then
      repl ++ subLitAux pat repl fuel ((c :: cs).drop pat.length)
    else c :: subLitAux pat repl fuel cs

def subLit (pat repl s : List Char) : List Char :=
  subLitAux pat repl s.length s

/-- The rule loop of `Tokenizer.rules`: each rule, in file order, is searched in
the accumulated result and, when found, substituted throughout it. -/
def rulesLoop (rules : List (List Char × List Char)) (s : List Char) : List Char :=
  rules.foldl
    (fun result pr => if searchLit pr.1 result then subLit pr.1 pr.2 result else result) s

/-- `Tokenizer.rules`: identity when no rules file is configured; otherwise NFD
the input, run the rule loop over the paired rules/replacements lists, and NFD
the final result. -/
def rulesApply (nfd : List Char → List Char) (hasRulesFile : Bool)
    (opRules opReplacements : List (List Char)) (s : List Char) : List Char :=
  if !hasRulesFile then s
  else nfd (rulesLoop (opRules.zip opReplacements) (nfd s))

/-- `Tokenizer.characters` (with the external NFD treated as identity on
already-normalized input): replace spaces by "#", append a space after every
character, and strip. -/
def characters (w : List Char) : List Char :=
  stripWS ((w.map (fun c => [if c == ' ' then '#' else c, ' '])).flatten)

/-- `Tokenizer.find_missing_characters`: in a space-delimited character string,
replace every character not a key of op_graphemes with "?". -/
def findMissingCharacters (opG : List (List Char)) (s : List Char) : List Char :=
  joinSpace ((splitWS s).map (fun c => if c ∈ opG then c else qmark))

/-- Python str.lstrip("#") / str.rstrip("#"). -/
def lstripHash (l : List Char) : List Char := l.dropWhile (fun c => c == '#')

def rstripHash (l : List Char) : List Char :=
  (l.reverse.dropWhile (fun c => c == '#')).reverse

/-- Python str.replace("##", "#"): replace non-overlapping occurrences left to
right. -/
def replaceHH : List Char → List Char
  | '#' :: '#' :: rest => '#' :: replaceHH rest
  | c :: rest => c :: replaceHH rest
  | [] => []

/-- `Tokenizer.graphemes` for a configured profile (the external NFD treated as
identity on already-normalized input): split into words, parse each with the
trie, fall back to " " plus the unknown-marker character tokenization when the
parse fails, join, collapse "##", strip boundary markers from both ends, and
strip whitespace. -/
def graphemesFn (root : TreeNode) (opG : List (List Char)) (s : List Char) : List Char :=
  stripWS (lstripHash (rstripHash (replaceHH
    (((splitWS s).map (fun w =>
      if (treeParse root w).length = 0 then
        ' ' :: findMissingCharacters opG (characters w)
      else treeParse root w)).flatten))))

/-- The token loop of `Tokenizer.transform`: boundary and unknown markers pass
through, other tokens are looked up under (token, column); a missing key is the
KeyError of `self.mappings[token, column]` (modeled as `none`), and a "NULL"
target drops the token. -/
def remapTokens (m : List ((List Char × List Char) × List Char)) (column : List Char) :
    List (List Char) → Option (List (List Char))
  | [] => some []
  | t :: ts =>
    if t = hash then (remapTokens m column ts).map (fun r => hash :: r)
    else if t = qmark then (remapTokens m column ts).map (fun r => qmark :: r)
    else
      match List.lookup (t, column) m with
      | none => none
      | some target =>
        if target = NULLtok then remapTokens m column ts
        else (remapTokens m column ts).map (fun r => target :: r)

/-- `Tokenizer.transform` for a configured profile: the "graphemes" column and
any column label not declared in the profile return the plain grapheme
tokenization; otherwise the tokenized string is split and remapped token by
token, joined by spaces and stripped. -/
def transform (prof : Profile) (root : TreeNode) (s : List Char) (column : List Char) :
    Option (List Char) :=
  if column = graphemesLabel then some (graphemesFn root prof.opGraphemes s)
  else if column ∉ prof.columnLabels then some (graphemesFn root prof.opGraphemes s)
  else
    (remapTokens prof.mappings column (splitWS (graphemesFn root prof.opGraphemes s))).map
      (fun r => stripWS (joinSpace r))

/-- `len(grapheme) == 1 and unicodedata.category(grapheme) == "Lm"`, with the
external `unicodedata.category` threaded through as the abstract `cat`. -/
def isLmSeg (cat : Char → List Char) (g : List Char) : Bool :=
  match g with
  | [c] => if cat c = "Lm".data then true else false
  | _ => false

/-- The first (reversed) loop of `Tokenizer.combine_modifiers`: walk the grapheme
clusters in reverse with a countdown of the forward index; a single-character
Modifier Letter is accumulated into temp, and when it sits at the very start it
is merged into the most recently appended segment — `result[-1]` on an empty
result list is an IndexError, modeled as `none`.  The result list is kept most
recent first, which is exactly `result[::-1]` of the source. -/
def phase1Aux (cat : Char → List Char) :
    List (List Char) → Nat → List (List Char) → List Char → Option (List (List Char))
  | [], _, result, _ => some result
  | g :: rest, count, result, temp =>
    if isLmSeg cat g then
      if count - 1 = 0 then
        match result with
        | [] => none
        | r :: rs => phase1Aux cat rest (count - 1) (((g ++ temp) ++ r) :: rs) (g ++ temp)
      else phase1Aux cat rest (count - 1) result (g ++ temp)
    else phase1Aux cat rest (count - 1) ((g ++ temp) :: result) []

/-- The tie-bar while loop of `Tokenizer.combine_modifiers`: a segment whose last
character is code point 865 or 860 is concatenated with the following segment —
`segments[i+1]` past the end is an IndexError, modeled as `none` (as is
`segments[i][-1]` of an empty segment). -/
def phase2 : List (List Char) → Option (List (List Char))
  | [] => some []
  | seg :: rest =>
    match seg.getLast? with
    | none => none
    | some c =>
      if c.toNat = 865 ∨ c.toNat = 860 then
        match rest with
        | [] => none
        | seg2 :: rest' => (phase2 rest').map (fun r => (seg ++ seg2) :: r)
      else (phase2 rest).map (fun r => seg :: r)

/-- `Tokenizer.combine_modifiers`: split on whitespace, run the reversed
modifier-merging loop, then the tie-bar pass, and join with spaces; `none` is an
uncaught IndexError of the source. -/
def combineModifiers (cat : Char → List Char) (s : List Char) : Option (List Char) :=
  match phase1Aux cat (splitWS s).reverse (splitWS s).length [] [] with
  | none => none
  | some result => (phase2 result).map (fun r => joinSpace r)

/-- op_graphemes key set of the profile declaring only "uu". -/
def opGUU : List (List Char) := [['u', 'u']]

/-- op_graphemes key set of the profile declaring "uu", "b" and "o". -/
def opGUUBO : List (List Char) := [['u', 'u'], ['b'], ['o']]

/-- A demonstration profile state with columns "graphemes" and "ipa". -/
def demoProf : Profile :=
  ⟨["graphemes".data, "ipa".data],
   [((['u', 'u'], "ipa".data), ['w']), ((['b'], "ipa".data), ['p']),
    ((['o'], "ipa".data), NULLtok)],
   [['u', 'u'], ['b'], ['o']]⟩

theorem walk_nil (root node : TreeNode) (consumed parse : List Char) :
    walk root node consumed [] parse = parse := rfl

theorem walk_cons (root node : TreeNode) (consumed : List Char) (c : Char)
    (rest' parse : List Char) :
    walk root node consumed (c :: rest') parse =
      match lookupChild node c with
      | none => parse
      | some child =>
        walk root child (consumed ++ [c]) rest'
          (if child.sentinel then
            (if 0 < (tparse root rest').length then
              (consumed ++ [c]) ++ space ++ tparse root rest'
            else parse)
          else parse) := rfl

theorem walk_cons_none (root node : TreeNode) (consumed : List Char) (c : Char)
    (rest' parse : List Char) (h : lookupChild node c = none) :
    walk root node consumed (c :: rest') parse = parse := by
  rw [walk_cons, h]

theorem walk_cons_some (root node child : TreeNode) (consumed : List Char) (c : Char)
    (rest' parse : List Char) (h : lookupChild node c = some child) :
    walk root node consumed (c :: rest') parse =
      walk root child (consumed ++ [c]) rest'
        (if child.sentinel then
          (if 0 < (tparse root rest').length then
            (consumed ++ [c]) ++ space ++ tparse root rest'
          else parse)
        else parse) := by
  rw [walk_cons, h]

theorem maxCand_nil (root node : TreeNode) : maxCand root node [] = none := rfl

theorem maxCand_cons (root node : TreeNode) (c : Char) (rest' : List Char) :
    maxCand root node (c :: rest') =
      match lookupChild node c with
      | none => none
      | some child =>
        match maxCand root child rest' with
        | some j => some (j + 1)
        | none =>
          if child.sentinel = true ∧ tparse root rest' ≠ [] then some 1 else none := rfl

theorem maxCand_cons_none (root node : TreeNode) (c : Char) (rest' : List Char)
    (h : lookupChild node c = none) : maxCand root node (c :: rest') = none := by
  rw [maxCand_cons, h]

theorem maxCand_cons_some (root node child : TreeNode) (c : Char) (rest' : List Char)
    (h : lookupChild node c = some child) :
    maxCand root node (c :: rest') =
      match maxCand root child rest' with
      | some j => some (j + 1)
      | none =>
        if child.sentinel = true ∧ tparse root rest' ≠ [] then some 1 else none := by
  rw [maxCand_cons, h]

theorem walk_spec (root : TreeNode) (rest : List Char) :
    ∀ (node : TreeNode) (consumed parse : List Char),
      (maxCand root node rest = none → walk root node consumed rest parse = parse) ∧
      (∀ j, maxCand root node rest = some j →
        walk root node consumed rest parse =
          (consumed ++ rest.take j) ++ space ++ tparse root (rest.drop j)) := by
  induction rest with
  | nil =>
    intro node consumed parse
    refine ⟨fun _ => rfl, fun j hj => ?_⟩
    rw [maxCand_nil] at hj
    exact absurd hj (by simp)
  | cons c rest' ih =>
    intro node consumed parse
    cases hlc : lookupChild node c with
    | none =>
      refine ⟨fun _ => walk_cons_none root node consumed c rest' parse hlc, fun j hj => ?_⟩
      rw [maxCand_cons_none root node c rest' hlc] at hj
      exact absurd hj (by simp)
    | some child =>
      have hw := walk_cons_some root node child consumed c rest' parse hlc
      have hm := maxCand_cons_some root node child c rest' hlc
      cases hmc : maxCand root child rest' with
      | some j' =>
        have hmax : maxCand root node (c :: rest') = some (j' + 1) := by rw [hm, hmc]
        constructor
        · intro h
          rw [hmax] at h
          exact absurd h (by simp)
        · intro j hj
          rw [hmax] at hj
          injection hj with hjj
          subst hjj
          rw [hw, (ih child (consumed ++ [c]) _).2 j' hmc]
          simp [List.take_succ_cons, List.drop_succ_cons, List.append_assoc]
      | none =>
        by_cases hcond : child.sentinel = true ∧ tparse root rest' ≠ []
        · have hmax : maxCand root node (c :: rest') = some 1 := by
            rw [hm, hmc]
            exact if_pos hcond
          constructor
          · intro h
            rw [hmax] at h
            exact absurd h (by simp)
          · intro j hj
            rw [hmax] at hj
            injection hj with hjj
            subst hjj
            rw [hw, (ih child (consumed ++ [c]) _).1 hmc,
              if_pos hcond.1, if_pos (List.length_pos.mpr hcond.2)]
            simp
        · have hmax : maxCand root node (c :: rest') = none := by
            rw [hm, hmc]
            exact if_neg hcond
          have hP : (if child.sentinel then
              (if 0 < (tparse root rest').length then
                (consumed ++ [c]) ++ space ++ tparse root rest'
              else parse)
            else parse) = parse := by
            rcases not_and_or.mp hcond with hs | ht
            · rw [if_neg hs]
            · have hlen : ¬ 0 < (tparse root rest').length := by
                have : tparse root rest' = [] := not_not.mp ht
                rw [this]
                simp
              by_cases hs : child.sentinel = true
              · rw [if_pos hs, if_neg hlen]
              · rw [if_neg hs]
          constructor
          · intro _
            rw [hw, hP]
            exact (ih child (consumed ++ [c]) parse).1 hmc
          · intro j hj
            rw [hmax] at hj
            exact absurd hj (by simp)

theorem tparse_eq (root : TreeNode) (line : List Char) (h : line ≠ []) :
    (maxCand root root line = none → tparse root line = []) ∧
    (∀ j, maxCand root root line = some j →
      tparse root line = line.take j ++ space ++ tparse root (line.drop j)) := by
  have hs := walk_spec root line root [] []
  have ht : tparse root line = walk root root [] line [] := by
    unfold tparse
    rw [if_neg h]
  refine ⟨fun hm => ?_, fun j hj => ?_⟩
  · rw [ht]
    exact hs.1 hm
  · rw [ht, hs.2 j hj]
    simp

theorem sentinelAt_nil (node : TreeNode) : sentinelAt node [] = node.sentinel := rfl

theorem reach_cons (node : TreeNode) (c : Char) (cs : List Char) :
    reach node (c :: cs) =
      match lookupChild node c with
      | some child => reach child cs
      | none => none := rfl

theorem sentinelAt_cons_some (node child : TreeNode) (c : Char) (xs : List Char)
    (h : lookupChild node c = some child) :
    sentinelAt node (c :: xs) = sentinelAt child xs := by
  unfold sentinelAt
  rw [reach_cons, h]

theorem sentinelAt_cons_none (node : TreeNode) (c : Char) (xs : List Char)
    (h : lookupChild node c = none) : sentinelAt node (c :: xs) = false := by
  unfold sentinelAt
  rw [reach_cons, h]

theorem isCand_cons_none (root node : TreeNode) (c : Char) (rest' : List Char)
    (h : lookupChild node c = none) (j : Nat) : ¬ isCand root node (c :: rest') j := by
  intro hc
  obtain ⟨h1, _, h3, _⟩ := hc
  obtain ⟨j', rfl⟩ : ∃ j', j = j' + 1 := ⟨j - 1, by omega⟩
  rw [List.take_succ_cons, sentinelAt_cons_none node c _ h] at h3
  exact Bool.false_ne_true h3

theorem isCand_cons_some_succ (root node child : TreeNode) (c : Char) (rest' : List Char)
    (h : lookupChild node c = some child) (j : Nat) (hj : 1 ≤ j) :
    isCand root node (c :: rest') (j + 1) ↔ isCand root child rest' j := by
  unfold isCand
  rw [List.take_succ_cons, List.drop_succ_cons, sentinelAt_cons_some node child c _ h,
    List.length_cons]
  constructor
  · rintro ⟨_, h2, h3, h4⟩
    exact ⟨hj, by omega, h3, h4⟩
  · rintro ⟨_, h2, h3, h4⟩
    exact ⟨by omega, by omega, h3, h4⟩

theorem isCand_cons_some_one (root node child : TreeNode) (c : Char) (rest' : List Char)
    (h : lookupChild node c = some child) :
    isCand root node (c :: rest') 1 ↔ (child.sentinel = true ∧ tparse root rest' ≠ []) := by
  unfold isCand
  have h1 : (c :: rest').take 1 = [c] := rfl
  have h2 : (c :: rest').drop 1 = rest' := rfl
  have h3 : sentinelAt node [c] = child.sentinel := by
    rw [sentinelAt_cons_some node child c [] h, sentinelAt_nil]
  rw [h1, h2, h3, List.length_cons]
  constructor
  · rintro ⟨_, _, h4, h5⟩
    exact ⟨h4, h5⟩
  · rintro ⟨h4, h5⟩
    exact ⟨le_refl 1, by omega, h4, h5⟩

theorem maxCand_spec (root : TreeNode) (rest : List Char) :
    ∀ node : TreeNode,
      (maxCand root node rest = none → ∀ j, ¬ isCand root node rest j) ∧
      (∀ j, maxCand root node rest = some j →
        isCand root node rest j ∧ ∀ k, isCand root node rest k → k ≤ j) := by
  induction rest with
  | nil =>
    intro node
    refine ⟨fun _ j hj => ?_, fun j hj => ?_⟩
    · obtain ⟨h1, h2, _, _⟩ := hj
      simp at h2
      omega
    · rw [maxCand_nil] at hj
      exact absurd hj (by simp)
  | cons c rest' ih =>
    intro node
    cases hlc : lookupChild node c with
    | none =>
      refine ⟨fun _ j => isCand_cons_none root node c rest' hlc j, fun j hj => ?_⟩
      rw [maxCand_cons_none root node c rest' hlc] at hj
      exact absurd hj (by simp)
    | some child =>
      have hm := maxCand_cons_some root node child c rest' hlc
      cases hmc : maxCand root child rest' with
      | some j' =>
        have hj' := (ih child).2 j' hmc
        have hmax : maxCand root node (c :: rest') = some (j' + 1) := by rw [hm, hmc]
        have hj'1 : 1 ≤ j' := hj'.1.1
        constructor
        · intro h
          rw [hmax] at h
          exact absurd h (by simp)
        · intro j hj
          rw [hmax] at hj
          injection hj with hjj
          subst hjj
          constructor
          · exact (isCand_cons_some_succ root node child c rest' hlc j' hj'1).mpr hj'.1
          · intro k hk
            have hk1 : 1 ≤ k := hk.1
            obtain ⟨k', rfl⟩ : ∃ k', k = k' + 1 := ⟨k - 1, by omega⟩
            by_cases hk'1 : 1 ≤ k'
            · have := hj'.2 k'
                ((isCand_cons_some_succ root node child c rest' hlc k' hk'1).mp hk)
              omega
            · omega
      | none =>
        have hnone := (ih child).1 hmc
        by_cases hcond : child.sentinel = true ∧ tparse root rest' ≠ []
        · have hmax : maxCand root node (c :: rest') = some 1 := by
            rw [hm, hmc]
            exact if_pos hcond
          constructor
          · intro h
            rw [hmax] at h
            exact absurd h (by simp)
          · intro j hj
            rw [hmax] at hj
            injection hj with hjj
            subst hjj
            constructor
            · exact (isCand_cons_some_one root node child c rest' hlc).mpr hcond
            · intro k hk
              have hk1 : 1 ≤ k := hk.1
              by_cases hk2 : 2 ≤ k
              · obtain ⟨k', rfl⟩ : ∃ k', k = k' + 1 := ⟨k - 1, by omega⟩
                exact absurd
                  ((isCand_cons_some_succ root node child c rest' hlc k' (by omega)).mp hk)
                  (hnone k')
              · omega
        · have hmax : maxCand root node (c :: rest') = none := by
            rw [hm, hmc]
            exact if_neg hcond
          constructor
          · intro _ j hj
            have hj1 : 1 ≤ j := hj.1
            by_cases hj2 : 2 ≤ j
            · obtain ⟨j', rfl⟩ : ∃ j', j = j' + 1 := ⟨j - 1, by omega⟩
              exact absurd
                ((isCand_cons_some_succ root node child c rest' hlc j' (by omega)).mp hj)
                (hnone j')
            · have hj3 : j = 1 := by omega
              subst hj3
              exact hcond ((isCand_cons_some_one root node child c rest' hlc).mp hj)
          · intro j hj
            rw [hmax] at hj
            exact absurd hj (by simp)

/-- C1: for a non-empty word, the parse of tree.py `Tree._parse` is determined by
the longest candidate split point: if `k` is a candidate (the prefix of length `k`
is a walkable path ending at a terminal trie node and the remaining suffix itself
parses) and no candidate is larger, the result is that prefix followed by the
parse of its suffix; and if there is no candidate at all, the result is empty —
a failing deeper attempt never erases an earlier success, and no alternative
branch is ever re-explored. -/
theorem c1_parse_longest_success (root : TreeNode) (line : List Char) (hne : line ≠ []) :
    (∀ k, isCand root root line k → (∀ k', isCand root root line k' → k' ≤ k) →
      tparse root line = line.take k ++ space ++ tparse root (line.drop k)) ∧
    ((∀ k, ¬ isCand root root line k) → tparse root line = []) := by
  obtain ⟨hnone, hsome⟩ := tparse_eq root line hne
  obtain ⟨mnone, msome⟩ := maxCand_spec root line root
  constructor
  · intro k hk hmax
    cases hmc : maxCand root root line with
    | none => exact absurd hk (mnone hmc k)
    | some j =>
      have hj := msome j hmc
      have hjk : j = k := le_antisymm (hmax j hj.1) (hj.2 k hk)
      subst hjk
      exact hsome j hmc
  · intro hno
    cases hmc : maxCand root root line with
    | none => exact hnone hmc
    | some j => exact absurd (msome j hmc).1 (hno j)

theorem c1_witness :
    (['u', 'u', 'b'] ≠ ([] : List Char)) ∧
      tparse demoTree ['u', 'u', 'b'] = "uu b #".data := by
  constructor
  · decide
  · have hmax : ∀ k', isCand demoTree demoTree ['u', 'u', 'b'] k' → k' ≤ 2 := by
      intro k' hk'
      have hb : k' ≤ 3 := hk'.2.1
      interval_cases k'
      · omega
      · omega
      · omega
      · exact absurd hk' (by decide)
    have h := (c1_parse_longest_success demoTree ['u', 'u', 'b'] (by decide)).1 2
      (by decide) hmax
    rw [h]
    decide

/-- C6 counterexample: applied to the empty word, the public parse of the
Segmenter (tree.py `Tree.parse`) returns "# #" — the boundary marker returned by
the recursive base case, prefixed with one more "# " — and not just "#". -/
theorem c6_counterexample :
    treeParse (buildTree []) [] = "# #".data ∧ treeParse (buildTree []) [] ≠ "#".data := by
  constructor
  · decide
  · decide

/-- C6 (amended): the recursive parser `Tree._parse` returns exactly the boundary
marker "#" on the empty substring (the base case always succeeds), and the public
`Tree.parse` therefore returns "# #" for the empty input word. -/
theorem c6_empty_parse (root : TreeNode) :
    tparse root [] = "#".data ∧ treeParse root [] = "# #".data := by
  constructor
  · rfl
  · rfl

theorem c6_witness :
    tparse (buildTree []) [] = "#".data ∧ treeParse (buildTree []) [] = "# #".data :=
  c6_empty_parse (buildTree [])

theorem tparse_shape (root : TreeNode) :
    ∀ (n : Nat) (w : List Char), w.length ≤ n → tparse root w ≠ [] →
      ∃ gs : List (List Char),
        (∀ g ∈ gs, g ≠ [] ∧ sentinelAt root g = true) ∧
        gs.flatten = w ∧ tparse root w = renderTok gs := by
  intro n
  induction n with
  | zero =>
    intro w hw _
    have hwnil : w = [] := List.eq_nil_of_length_eq_zero (Nat.le_zero.mp hw)
    subst hwnil
    exact ⟨[], by simp, by simp, rfl⟩
  | succ n ihn =>
    intro w hw hne
    by_cases hwe : w = []
    · subst hwe
      exact ⟨[], by simp, by simp, rfl⟩
    · obtain ⟨hnone, hsome⟩ := tparse_eq root w hwe
      cases hmc : maxCand root root w with
      | none => exact absurd (hnone hmc) hne
      | some j =>
        have heq := hsome j hmc
        obtain ⟨hj1, hj2, hj3, hj4⟩ := ((maxCand_spec root w root).2 j hmc).1
        have hlen : (w.drop j).length ≤ n := by
          rw [List.length_drop]
          have : 0 < w.length := List.length_pos.mpr hwe
          omega
        obtain ⟨gs', hg', hflat', hrender'⟩ := ihn (w.drop j) hlen hj4
        refine ⟨w.take j :: gs', ?_, ?_, ?_⟩
        · intro g hg
          rcases List.mem_cons.mp hg with rfl | hgm
          · refine ⟨?_, hj3⟩
            intro hnil
            have hlt : (w.take j).length = 0 := by rw [hnil]; rfl
            rw [List.length_take] at hlt
            have : 0 < w.length := List.length_pos.mpr hwe
            omega
          · exact hg' g hgm
        · rw [List.flatten_cons, hflat', List.take_append_drop]
        · rw [heq, hrender']
          simp [renderTok, List.append_assoc]

/-- C8: whenever the Segmenter's parse of a word is non-empty, it has the shape
"# g1 g2 ... gk #" where every gi is a non-empty grapheme present in the trie
(a walkable path ending at a terminal node) and the concatenation of the gi is
exactly the input word — segmentation is lossless. -/
theorem c8_parse_lossless (root : TreeNode) (w : List Char) (h : treeParse root w ≠ []) :
    ∃ gs : List (List Char),
      (∀ g ∈ gs, g ≠ [] ∧ sentinelAt root g = true) ∧
      gs.flatten = w ∧ treeParse root w = hash ++ space ++ renderTok gs := by
  have ht : tparse root w ≠ [] := by
    intro he
    apply h
    unfold treeParse
    rw [if_pos he]
  obtain ⟨gs, h1, h2, h3⟩ := tparse_shape root w.length w le_rfl ht
  refine ⟨gs, h1, h2, ?_⟩
  unfold treeParse
  rw [if_neg ht, h3]

theorem c8_witness :
    (treeParse demoTree ['u', 'u', 'b'] ≠ []) ∧
      ∃ gs : List (List Char),
        (∀ g ∈ gs, g ≠ [] ∧ sentinelAt demoTree g = true) ∧
        gs.flatten = ['u', 'u', 'b'] ∧
        treeParse demoTree ['u', 'u', 'b'] = hash ++ space ++ renderTok gs :=
  ⟨by decide, c8_parse_lossless demoTree ['u', 'u', 'b'] (by decide)⟩

theorem initProfileGo_nil (nfd : List Char → List Char) (n : Nat) (st : Profile) :
    initProfileGo nfd [] n st = .ok st := rfl

theorem initProfileGo_cons (nfd : List Char → List Char) (r : List Char)
    (rest : List (List Char)) (n : Nat) (st : Profile) :
    initProfileGo nfd (r :: rest) n st =
      match procLine nfd n st r with
      | .ok st' => initProfileGo nfd rest (n + 1) st'
      | .error e => .error e := rfl

theorem initProfileGo_append_err (nfd : List Char → List Char) (l1 : List (List Char)) :
    ∀ (l2 : List (List Char)) (n : Nat) (st : Profile) (e : ProfErr),
      initProfileGo nfd l1 n st = .error e →
      initProfileGo nfd (l1 ++ l2) n st = .error e := by
  induction l1 with
  | nil =>
    intro l2 n st e h
    rw [initProfileGo_nil] at h
    exact absurd h (by simp)
  | cons r l1' ih =>
    intro l2 n st e h
    rw [initProfileGo_cons] at h
    rw [List.cons_append, initProfileGo_cons]
    cases hp : procLine nfd n st r with
    | ok st' =>
      rw [hp] at h
      exact ih l2 (n + 1) st' e h
    | error e' =>
      rw [hp] at h
      exact h

theorem initProfileGo_append_ok (nfd : List Char → List Char) (l1 : List (List Char)) :
    ∀ (l2 : List (List Char)) (n : Nat) (st st' : Profile),
      initProfileGo nfd l1 n st = .ok st' →
      initProfileGo nfd (l1 ++ l2) n st = initProfileGo nfd l2 (n + l1.length) st' := by
  induction l1 with
  | nil =>
    intro l2 n st st' h
    rw [initProfileGo_nil] at h
    injection h with h'
    subst h'
    simp
  | cons r l1' ih =>
    intro l2 n st st' h
    rw [initProfileGo_cons] at h
    rw [List.cons_append, initProfileGo_cons]
    cases hp : procLine nfd n st r with
    | ok st'' =>
      rw [hp] at h
      have hrec := ih l2 (n + 1) st'' st' h
      have harith : n + 1 + l1'.length = n + (l1'.length + 1) := by omega
      rw [harith] at hrec
      exact hrec
    | error e' =>
      rw [hp] at h
      exact absurd h (by simp)

theorem procLine_dup (nfd : List Char → List Char) (n : Nat) (st : Profile) (r : List Char)
    (hd : isDataRow r) (hmem : graphemeKey nfd r ∈ st.opGraphemes) :
    procLine nfd n st r = .error (.dup (n + 1)) := by
  have hd1 : (startsWithL hash (stripWS r) || (stripWS r).isEmpty) = false := hd.1
  have hd2 : startsWithL graphemesLabel (lowerL (stripWS r)) = false := hd.2
  unfold procLine
  rw [if_neg (by simp [hd1]), if_neg (by simp [hd2]), if_pos hmem]

theorem procLine_data (nfd : List Char → List Char) (n : Nat) (st : Profile) (r : List Char)
    (hd : isDataRow r) (hnm : graphemeKey nfd r ∉ st.opGraphemes) :
    procLine nfd n st r = .error (.indexErr (n + 1)) ∨
    ∃ st', procLine nfd n st r = .ok st' ∧
      st'.opGraphemes = st.opGraphemes ++ [graphemeKey nfd r] := by
  have hd1 : (startsWithL hash (stripWS r) || (stripWS r).isEmpty) = false := hd.1
  have hd2 : startsWithL graphemesLabel (lowerL (stripWS r)) = false := hd.2
  unfold procLine
  rw [if_neg (by simp [hd1]), if_neg (by simp [hd2]), if_neg hnm]
  by_cases h1 : (rowTokens nfd r).length = 1
  · rw [if_pos h1]
    exact Or.inr ⟨_, rfl, rfl⟩
  · rw [if_neg h1]
    by_cases h2 : st.columnLabels.length < (rowTokens nfd r).length
    · rw [if_pos h2]
      exact Or.inl rfl
    · rw [if_neg h2]
      exact Or.inr ⟨_, rfl, rfl⟩

theorem procLine_mono (nfd : List Char → List Char) (n : Nat) (st st' : Profile)
    (r : List Char) (h : procLine nfd n st r = .ok st') :
    ∀ g ∈ st.opGraphemes, g ∈ st'.opGraphemes := by
  intro g hg
  unfold procLine at h
  split at h
  · injection h with h'
    subst h'
    exact hg
  · split at h
    · injection h with h'
      subst h'
      exact hg
    · split at h
      · exact absurd h (by simp)
      · split at h
        · injection h with h'
          subst h'
          exact List.mem_append_left _ hg
        · split at h
          · exact absurd h (by simp)
          · injection h with h'
            subst h'
            exact List.mem_append_left _ hg

theorem initProfileGo_mono (nfd : List Char → List Char) (lines : List (List Char)) :
    ∀ (n : Nat) (st st' : Profile), initProfileGo nfd lines n st = .ok st' →
      ∀ g ∈ st.opGraphemes, g ∈ st'.opGraphemes := by
  induction lines with
  | nil =>
    intro n st st' h g hg
    rw [initProfileGo_nil] at h
    injection h with h'
    subst h'
    exact hg
  | cons r rest ih =>
    intro n st st' h g hg
    rw [initProfileGo_cons] at h
    cases hp : procLine nfd n st r with
    | ok st'' =>
      rw [hp] at h
      exact ih (n + 1) st'' st' h g (procLine_mono nfd n st st'' r hp g hg)
    | error e =>
      rw [hp] at h
      exact absurd h (by simp)

/-- C2: a profile whose rows include two data rows with the same grapheme string
(after stripping, NFD and taking the first tab column) always fails to load; and
whenever the loader survives everything before the second of the two rows, the
failure is exactly the duplicate error carrying that row's 1-based line number —
independently of the values in the rows' other columns. -/
theorem c2_duplicate_grapheme_fails (nfd : List Char → List Char)
    (pre mid post : List (List Char)) (r1 r2 : List Char)
    (h1 : isDataRow r1) (h2 : isDataRow r2)
    (heq : graphemeKey nfd r1 = graphemeKey nfd r2) :
    (∃ e, initProfile nfd (pre ++ r1 :: mid ++ r2 :: post) = .error e) ∧
    (∀ st, initProfileGo nfd (pre ++ r1 :: mid) 0 emptyProfile = .ok st →
      initProfile nfd (pre ++ r1 :: mid ++ r2 :: post) =
        .error (.dup (pre.length + mid.length + 2))) := by
  have hsplit : pre ++ r1 :: mid ++ r2 :: post = (pre ++ r1 :: mid) ++ r2 :: post := by
    simp [List.append_assoc]
  have part2 : ∀ st, initProfileGo nfd (pre ++ r1 :: mid) 0 emptyProfile = .ok st →
      initProfile nfd (pre ++ r1 :: mid ++ r2 :: post) =
        .error (.dup (pre.length + mid.length + 2)) := by
    intro st hok
    have hok0 := hok
    have hkey2 : graphemeKey nfd r2 ∈ st.opGraphemes := by
      cases hp : initProfileGo nfd pre 0 emptyProfile with
      | error e =>
        rw [initProfileGo_append_err nfd pre (r1 :: mid) 0 emptyProfile e hp] at hok
        exact absurd hok (by simp)
      | ok st0 =>
        rw [initProfileGo_append_ok nfd pre (r1 :: mid) 0 emptyProfile st0 hp,
          initProfileGo_cons] at hok
        cases hq : procLine nfd (0 + pre.length) st0 r1 with
        | error e =>
          rw [hq] at hok
          exact absurd hok (by simp)
        | ok st1 =>
          rw [hq] at hok
          have hkey1 : graphemeKey nfd r1 ∈ st1.opGraphemes := by
            by_cases hm : graphemeKey nfd r1 ∈ st0.opGraphemes
            · rw [procLine_dup nfd (0 + pre.length) st0 r1 h1 hm] at hq
              exact absurd hq (by simp)
            · rcases procLine_data nfd (0 + pre.length) st0 r1 h1 hm with
                herr | ⟨st1', hok', hadd⟩
              · rw [herr] at hq
                exact absurd hq (by simp)
              · have hq' := hok'.symm.trans hq
                injection hq' with hq''
                subst hq''
                rw [hadd]
                exact List.mem_append_right _ (List.mem_singleton.mpr rfl)
          exact initProfileGo_mono nfd mid (0 + pre.length + 1) st1 st hok
            (graphemeKey nfd r2) (heq ▸ hkey1)
    unfold initProfile
    rw [hsplit, initProfileGo_append_ok nfd (pre ++ r1 :: mid) (r2 :: post) 0
      emptyProfile st hok0, initProfileGo_cons,
      procLine_dup nfd (0 + (pre ++ r1 :: mid).length) st r2 h2 hkey2]
    have harith : 0 + (pre ++ r1 :: mid).length + 1 = pre.length + mid.length + 2 := by
      simp only [List.length_append, List.length_cons]
      omega
    rw [harith]
  constructor
  · cases hok : initProfileGo nfd (pre ++ r1 :: mid) 0 emptyProfile with
    | ok st => exact ⟨_, part2 st hok⟩
    | error e =>
      refine ⟨e, ?_⟩
      unfold initProfile
      rw [hsplit]
      exact initProfileGo_append_err nfd (pre ++ r1 :: mid) (r2 :: post) 0 emptyProfile e hok
  · exact part2

theorem c2_witness :
    isDataRow ['a'] ∧ initProfile id [['a'], ['a']] = .error (.dup 2) :=
  ⟨by decide,
    (c2_duplicate_grapheme_fails id [] [] [] ['a'] ['a'] (by decide) (by decide) rfl).2
      ⟨[], [], [['a']]⟩ (by rfl)⟩

/-- C3: the rule engine applies each rule, in file order, to the accumulated
result of the previous rule (never re-matching against the original input), so
rules A→B, B→C applied to "A" yield "C" and not "B"; with no rules file it is
the identity; and with rules configured the final result is the NFD
normalization of the rule loop's output. -/
theorem c3_rules_sequential (nfd : List Char → List Char)
    (hA : nfd ['A'] = ['A']) (hC : nfd ['C'] = ['C']) :
    rulesApply nfd true [['A'], ['B']] [['B'], ['C']] ['A'] = ['C'] ∧
    (∀ opRules opReplacements s, rulesApply nfd false opRules opReplacements s = s) ∧
    (∀ opRules opReplacements s,
      rulesApply nfd true opRules opReplacements s =
        nfd (rulesLoop (opRules.zip opReplacements) (nfd s))) := by
  refine ⟨?_, fun _ _ _ => rfl, fun _ _ _ => rfl⟩
  show nfd (rulesLoop ([['A'], ['B']].zip [['B'], ['C']]) (nfd ['A'])) = ['C']
  rw [hA]
  have hloop : rulesLoop ([['A'], ['B']].zip [['B'], ['C']]) ['A'] = ['C'] := by decide
  rw [hloop, hC]

theorem c3_witness :
    rulesApply id true [['A'], ['B']] [['B'], ['C']] ['A'] = ['C'] ∧
    (∀ opRules opReplacements s, rulesApply id false opRules opReplacements s = s) ∧
    (∀ opRules opReplacements s,
      rulesApply id true opRules opReplacements s =
        id (rulesLoop (opRules.zip opReplacements) (id s))) :=
  c3_rules_sequential id rfl rfl

theorem remapTokens_cons (m : List ((List Char × List Char) × List Char))
    (column t : List Char) (ts : List (List Char)) :
    remapTokens m column (t :: ts) =
      (if t = hash then (remapTokens m column ts).map (fun r => hash :: r)
      else if t = qmark then (remapTokens m column ts).map (fun r => qmark :: r)
      else
        match List.lookup (t, column) m with
        | none => none
        | some target =>
          if target = NULLtok then remapTokens m column ts
          else (remapTokens m column ts).map (fun r => target :: r)) := rfl

/-- C4: in column remapping, a "#" token and a "?" token are passed through
unchanged, a token whose mapped value for the requested column is the sentinel
"NULL" is dropped from the output entirely, and requesting a column label not
among the profile's declared columns returns exactly the plain grapheme
tokenization rather than an error. -/
theorem c4_transform_remap :
    (∀ (prof : Profile) (root : TreeNode) (s column : List Char),
      column ∉ prof.columnLabels →
        transform prof root s column = some (graphemesFn root prof.opGraphemes s)) ∧
    (∀ m column ts,
      remapTokens m column (hash :: ts) =
        (remapTokens m column ts).map (fun r => hash :: r) ∧
      remapTokens m column (qmark :: ts) =
        (remapTokens m column ts).map (fun r => qmark :: r)) ∧
    (∀ m column t ts, t ≠ hash → t ≠ qmark →
      List.lookup (t, column) m = some NULLtok →
        remapTokens m column (t :: ts) = remapTokens m column ts) := by
  refine ⟨?_, ?_, ?_⟩
  · intro prof root s column h
    unfold transform
    by_cases hg : column = graphemesLabel
    · rw [if_pos hg]
    · rw [if_neg hg, if_pos h]
  · intro m column ts
    constructor
    · rw [remapTokens_cons, if_pos rfl]
    · rw [remapTokens_cons, if_neg (by decide), if_pos rfl]
  · intro m column t ts h1 h2 hl
    rw [remapTokens_cons, if_neg h1, if_neg h2, hl]
    simp

theorem c4_witness :
    (("xyz".data : List Char) ∉ demoProf.columnLabels) ∧
      transform demoProf demoTree "b".data "xyz".data =
        some (graphemesFn demoTree demoProf.opGraphemes "b".data) :=
  ⟨by decide, c4_transform_remap.1 demoProf demoTree "b".data "xyz".data (by decide)⟩

/-- C5 counterexample: with a profile declaring only the grapheme "uu" and no
other entries, the word "uubo" cannot be fully parsed ('b' and 'o' are not in
the trie, so the remainder after "uu" never parses), and graphemes degrades to
the unknown-marker fallback on every character: the result is
"? ? ? ? ? ? ? ?", not "uu b o # uu b o". -/
theorem c5_counterexample :
    graphemesFn treeUU opGUU "uubo uubo".data = "? ? ? ? ? ? ? ?".data ∧
    graphemesFn treeUU opGUU "uubo uubo".data ≠ "uu b o # uu b o".data := by
  constructor
  · decide
  · decide

/-- C5 (amended): with a profile declaring the graphemes "uu", "b" and "o",
graphemes("uubo uubo") returns "uu b o # uu b o" (the "# uu b o # uu b o #"
rendering with internal "##" collapsed and outer boundary markers stripped);
with only "uu" declared, both words fail to parse and every character degrades
to the unknown marker, yielding "? ? ? ? ? ? ? ?". -/
theorem c5_amended_graphemes :
    graphemesFn demoTree opGUUBO "uubo uubo".data = "uu b o # uu b o".data ∧
    graphemesFn treeUU opGUU "uubo uubo".data = "? ? ? ? ? ? ? ?".data := by
  constructor
  · decide
  · decide

theorem initRulesGo_nil (nfd : List Char → List Char)
    (opRules opReplacements : List (List Char)) :
    initRulesGo nfd [] opRules opReplacements =
      if opRules.length ≠ opReplacements.length then .error .countMismatch
      else .ok (opRules, opReplacements) := rfl

theorem initRulesGo_cons (nfd : List Char → List Char) (r : List Char)
    (rest : List (List Char)) (opRules opReplacements : List (List Char)) :
    initRulesGo nfd (r :: rest) opRules opReplacements =
      if startsWithL hash (stripWS r) || (stripWS r).isEmpty then
        initRulesGo nfd rest opRules opReplacements
      else
        match splitComma (nfd (stripWS r)) with
        | [rule, replacement] =>
          initRulesGo nfd rest (opRules ++ [stripWS rule])
            (opReplacements ++ [stripWS replacement])
        | _ => .error .unpack := rfl

theorem initRulesGo_bad_line (nfd : List Char → List Char) (pre : List (List Char))
    (bad : List Char) (post : List (List Char)) (hd : isRulesDataRow bad)
    (hbad : (splitComma (nfd (stripWS bad))).length ≠ 2) :
    ∀ opRules opReplacements,
      initRulesGo nfd (pre ++ bad :: post) opRules opReplacements = .error .unpack := by
  have hd' : (startsWithL hash (stripWS bad) || (stripWS bad).isEmpty) = false := hd
  induction pre with
  | nil =>
    intro opRules opReplacements
    rw [List.nil_append, initRulesGo_cons, if_neg (by simp [hd'])]
    cases hsc : splitComma (nfd (stripWS bad)) with
    | nil => rfl
    | cons a tail =>
      cases tail with
      | nil => rfl
      | cons b tail2 =>
        cases tail2 with
        | nil => exact absurd (by simp [hsc]) hbad
        | cons c tail3 => rfl
  | cons p pre' ih =>
    intro opRules opReplacements
    rw [List.cons_append, initRulesGo_cons]
    by_cases hp : (startsWithL hash (stripWS p) || (stripWS p).isEmpty) = true
    · rw [if_pos hp]
      exact ih opRules opReplacements
    · rw [if_neg hp]
      cases hsc : splitComma (nfd (stripWS p)) with
      | nil => rfl
      | cons a tail =>
        cases tail with
        | nil => rfl
        | cons b tail2 =>
          cases tail2 with
          | nil => exact ih _ _
          | cons c tail3 => rfl

/-- C7: a rules file containing a processed line that does not split on commas
into exactly one pattern and one replacement — which is the only way the number
of patterns can differ from the number of usable replacements, e.g. three
pattern lines with only two usable replacements — always fails fatally at load
time (the unpacking ValueError of `rule, replacement = line.split(",")`). -/
theorem c7_rules_mismatch_fails (nfd : List Char → List Char) (pre : List (List Char))
    (bad : List Char) (post : List (List Char)) (hd : isRulesDataRow bad)
    (hbad : (splitComma (nfd (stripWS bad))).length ≠ 2) :
    ∃ e, initRules nfd (pre ++ bad :: post) = .error e :=
  ⟨.unpack, initRulesGo_bad_line nfd pre bad post hd hbad [] []⟩

theorem c7_witness :
    isRulesDataRow ['e'] ∧
      ∃ e, initRules id ["a,b".data, "c,d".data, ['e']] = .error e :=
  ⟨by decide,
    c7_rules_mismatch_fails id ["a,b".data, "c,d".data] ['e'] [] (by decide) (by decide)⟩

theorem initRulesGo_inv (nfd : List Char → List Char) (lines : List (List Char)) :
    ∀ opRules opReplacements : List (List Char),
      opRules.length = opReplacements.length →
      initRulesGo nfd lines opRules opReplacements ≠ .error .countMismatch ∧
      (∀ ps rs, initRulesGo nfd lines opRules opReplacements = .ok (ps, rs) →
        ps.length = rs.length) := by
  induction lines with
  | nil =>
    intro opRules opReplacements hlen
    constructor
    · rw [initRulesGo_nil, if_neg (by omega)]
      simp
    · intro ps rs h
      rw [initRulesGo_nil, if_neg (by omega)] at h
      injection h with h'
      injection h' with ha hb
      subst ha
      subst hb
      exact hlen
  | cons r rest ih =>
    intro opRules opReplacements hlen
    by_cases hp : (startsWithL hash (stripWS r) || (stripWS r).isEmpty) = true
    · constructor
      · rw [initRulesGo_cons, if_pos hp]
        exact (ih opRules opReplacements hlen).1
      · intro ps rs h
        rw [initRulesGo_cons, if_pos hp] at h
        exact (ih opRules opReplacements hlen).2 ps rs h
    · cases hsc : splitComma (nfd (stripWS r)) with
      | nil =>
        constructor
        · rw [initRulesGo_cons, if_neg hp, hsc]
          simp
        · intro ps rs h
          rw [initRulesGo_cons, if_neg hp, hsc] at h
          exact absurd h (by simp)
      | cons a tail =>
        cases tail with
        | nil =>
          constructor
          · rw [initRulesGo_cons, if_neg hp, hsc]
            simp
          · intro ps rs h
            rw [initRulesGo_cons, if_neg hp, hsc] at h
            exact absurd h (by simp)
        | cons b tail2 =>
          cases tail2 with
          | nil =>
            have hlen' : (opRules ++ [stripWS a]).length =
                (opReplacements ++ [stripWS b]).length := by
              simp [hlen]
            constructor
            · rw [initRulesGo_cons, if_neg hp, hsc]
              exact (ih _ _ hlen').1
            · intro ps rs h
              rw [initRulesGo_cons, if_neg hp, hsc] at h
              exact (ih _ _ hlen').2 ps rs h
          | cons c tail3 =>
            constructor
            · rw [initRulesGo_cons, if_neg hp, hsc]
              simp
            · intro ps rs h
              rw [initRulesGo_cons, if_neg hp, hsc] at h
              exact absurd h (by simp)

/-- C9: the pattern and replacement lists grow in lockstep (one element per
usable rules line, a line that does not unpack failing earlier), so rules
loading never reaches the explicit count-mismatch error, and on success the two
lists have equal length. -/
theorem c9_count_mismatch_unreachable (nfd : List Char → List Char)
    (lines : List (List Char)) :
    initRules nfd lines ≠ .error .countMismatch ∧
    (∀ ps rs, initRules nfd lines = .ok (ps, rs) → ps.length = rs.length) :=
  initRulesGo_inv nfd lines [] [] rfl

theorem c9_witness : initRules id ["a,b".data] ≠ .error .countMismatch :=
  (c9_count_mismatch_unreachable id ["a,b".data]).1

/-- C10: combine_modifiers is partial — a single segment consisting of one
character classified "Lm" (Unicode Modifier Letter, e.g. U+02B0) makes the
leading-modifier merge index an empty result list, and a final segment ending in
combining tie bar code point 865 (or 860) makes the tie-bar pass index one past
the last segment; both are out-of-bounds errors, modeled as `none`. -/
theorem c10_combine_modifiers_oob (cat : Char → List Char)
    (hLm : cat (Char.ofNat 688) = "Lm".data) :
    combineModifiers cat [Char.ofNat 688] = none ∧
    combineModifiers cat ['a', Char.ofNat 865] = none := by
  constructor
  · have h1 : isLmSeg cat [Char.ofNat 688] = true := by
      show (if cat (Char.ofNat 688) = "Lm".data then true else false) = true
      rw [if_pos hLm]
    have h2 : phase1Aux cat [[Char.ofNat 688]] 1 [] [] = none := by
      unfold phase1Aux
      rw [if_pos h1]
      rfl
    unfold combineModifiers
    rw [show splitWS [Char.ofNat 688] = [[Char.ofNat 688]] from by decide]
    rw [show phase1Aux cat ([[Char.ofNat 688]].reverse) ([[Char.ofNat 688]].length) [] []
      = none from h2]
  · rfl

theorem c10_witness :
    combineModifiers (fun _ => "Lm".data) [Char.ofNat 688] = none ∧
    combineModifiers (fun _ => "Lm".data) ['a', Char.ofNat 865] = none :=
  c10_combine_modifiers_oob (fun _ => "Lm".data) rfl

end Ortho
